import Mathlib

/-!
Verification of the enrichment-and-validation pipeline of the `agents`
repository.  The Python sources (`clean_csv.py`, `enrich_linkedin.py`,
`enrich_phones.py`, `validate_enrichment.py`) are shallowly embedded:
strings are Lean `String`s manipulated through their underlying `List Char`,
CSV rows are ordered association lists, and the external answer capability
is a parameter (an oracle / parser function).  Regular-expression searches
used by the source are embedded as explicit scanning functions over
character lists.  Unicode-sensitive Python primitives (`str.lower`,
`\d`, `\w`, `str.strip`) are modelled on their ASCII behaviour, which is
the fragment all analysed data and all claims exercise.
-/

namespace Agents

/-- Whitespace characters stripped by Python `str.strip()` (ASCII range). -/
def pySpace (c : Char) : Bool :=
  c == ' ' || c == '\t' || c == '\n' || c == '\r' ||
  c == Char.ofNat 11 || c == Char.ofNat 12

/-- Drop trailing characters satisfying `p` (via reversal). -/
def trimEnd (l : List Char) : List Char :=
  (l.reverse.dropWhile pySpace).reverse

/-- Python `str.strip()`: drop leading and trailing whitespace. -/
def trimSeq (l : List Char) : List Char :=
  trimEnd (l.dropWhile pySpace)

/-- Python `str.lower()` (ASCII case folding). -/
def lowerSeq (l : List Char) : List Char :=
  l.map Char.toLower

/-- Does `l` start with the character sequence `pat`? (Python `startswith`.) -/
def startsSeq : List Char → List Char → Bool
  | _, [] => true
  | [], _ :: _ => false
  | a :: as, b :: bs => a == b && startsSeq as bs

/-- Does `l` contain `pat` as a contiguous subsequence? (Python `in`.) -/
def subSeq (pat : List Char) : List Char → Bool
  | [] => startsSeq [] pat
  | c :: t => startsSeq (c :: t) pat || subSeq pat t

/-- Does `l` end with the character sequence `pat`? (Python `endswith`.) -/
def endsSeq (l pat : List Char) : Bool :=
  startsSeq l.reverse pat.reverse

/-- Python `str.split(",")` on a character list. -/
def splitOnComma : List Char → List (List Char)
  | [] => [[]]
  | c :: t =>
    if c = ',' then [] :: splitOnComma t
    else
      match splitOnComma t with
      | [] => [[c]]
      | g :: gs => (c :: g) :: gs

/-- Number of distinct characters in a list (Python `len(set(...))`). -/
def distinctCount : List Char → Nat
  | [] => 0
  | c :: t => (if c ∈ t then 0 else 1) + distinctCount t

/-! ### `clean_csv.py`: heuristic classifier and field cleaners -/

/-- The fixed denylist `FAKE_PHONES` of `clean_csv.py`. -/
def FAKE_PHONES : List String :=
  ["123-456-7890", "+1 123-456-7890", "123 456 7890",
   "+1-202-555-0123", "+1-512-555-1234", "+1 234 567 8900",
   "+1-555-123-4567", "+1-407-555-1234", "+1 416-123-4567"]

/-- Word characters for the regex `\b` boundary (`[A-Za-z0-9_]`, ASCII). -/
def wordChar (c : Char) : Bool :=
  c.isAlphanum || c == '_'

/-- Separator class `[-.\s]` of the 555 regex in `clean_csv.py`. -/
def sep555 (c : Char) : Bool :=
  c == '-' || c == '.' || pySpace c

/-- Four digits followed by a `\b` word boundary. -/
def fourDigitsBdry : List Char → Bool
  | d1 :: d2 :: d3 :: d4 :: rest =>
    d1.isDigit && d2.isDigit && d3.isDigit && d4.isDigit &&
      (match rest with
       | [] => true
       | c :: _ => !wordChar c)
  | _ => false

/-- Does `l` begin with `555[-.\s]?\d{4}\b` (boundary after the digits)? -/
def core555b (l : List Char) : Bool :=
  match l with
  | '5' :: '5' :: '5' :: rest =>
    fourDigitsBdry rest ||
      (match rest with
       | c :: r2 => sep555 c && fourDigitsBdry r2
       | [] => false)
  | _ => false

/-- Is there a `\b` word boundary after the character `prev`
(`none` meaning the start of the string)? -/
def bdryPrev : Option Char → Bool
  | none => true
  | some d => !wordChar d

/-- Scan of `re.search(r'\b555[-.\s]?\d{4}\b', p)`: `prev` is the character
just before the current position (`none` at the start of the string). -/
def scan555b (prev : Option Char) : List Char → Bool
  | [] => false
  | c :: t => (bdryPrev prev && core555b (c :: t)) || scan555b (some c) t

/-- Declarative reading of the boundary-anchored 555 search: a match at the
start of the string, or right after some non-word character. -/
def spec555 (l : List Char) : Prop :=
  core555b l = true ∨
    ∃ a c b, l = a ++ c :: b ∧ wordChar c = false ∧ core555b b = true

/-- The separator set named by the specification for the 555 rule:
only `'-'`, `'.'`, or a space. -/
def claimSep (c : Char) : Bool :=
  c == '-' || c == '.' || c == ' '

/-- Four digits, no boundary requirement. -/
def fourDigitsNB : List Char → Bool
  | a :: b :: c :: d :: _ => a.isDigit && b.isDigit && c.isDigit && d.isDigit
  | _ => false

/-- Does `l` begin with `555`, an optional claim separator, and 4 digits
(no word boundaries)? -/
def coreNB (l : List Char) : Bool :=
  match l with
  | '5' :: '5' :: '5' :: rest =>
    fourDigitsNB rest ||
      (match rest with
       | c :: r2 => claimSep c && fourDigitsNB r2
       | [] => false)
  | _ => false

/-- Containment of a `555` + optional separator + 4-digit pattern anywhere. -/
def scanNB : List Char → Bool
  | [] => false
  | c :: t => coreNB (c :: t) || scanNB t

/-- `is_fake_phone` of `clean_csv.py`. -/
def is_fake_phone (phone : String) : Bool :=
  if phone = "" then false
  else
    let p := String.mk (trimSeq phone.data)
    if FAKE_PHONES.contains p then true
    else if scan555b none p.data then true
    else
      let digits := p.data.filter Char.isDigit
      if 7 ≤ digits.length ∧ distinctCount digits ≤ 2 then true else false

/-- The placeholder vocabulary of `is_junk` in `clean_csv.py`. -/
def junkPhrases : List String :=
  ["not publicly available", "not provided", "not found",
   "preparing profile", "unknown", "n/a", "none", "null",
   "protected", "http://click-to-open"]

/-- `is_junk` of `clean_csv.py`. -/
def is_junk (val : String) : Bool :=
  if val = "" then false
  else junkPhrases.contains (String.mk (lowerSeq (trimSeq val.data)))

/-- `is_url_not_email` of `clean_csv.py`. -/
def is_url_not_email (val : String) : Bool :=
  if val = "" then false
  else
    let v := trimSeq val.data
    startsSeq v "http".data || startsSeq v "www.".data ||
      subSeq "rocketreach.co".data val.data || subSeq "contactout.com".data val.data

/-- `is_too_masked` of `clean_csv.py`.  The source compares the float
`stars / total` with `0.6`; this is modelled exactly as `5 * stars > 3 * total`
(the analysed inputs never sit on a float-rounding boundary). -/
def is_too_masked (val : String) : Bool :=
  if val = "" then false
  else
    let stars := (val.data.filter (fun c => c == '*')).length
    let total := val.data.length
    if total = 0 then false
    else decide (0 < stars) && decide (3 * total < 5 * stars)

/-- `clean_full_name` of `clean_csv.py`: strip one trailing `"Verified"`. -/
def clean_full_name (name : String) : String :=
  if name = "" then name
  else if endsSeq name.data "Verified".data then
    String.mk (trimSeq (name.data.take (name.data.length - 8)))
  else name

/-- Acceptance test applied to each comma-separated email candidate in
`clean_email` of `clean_csv.py`. -/
def emailOkSeg (e : List Char) : Bool :=
  !(is_junk (String.mk e) || is_url_not_email (String.mk e) ||
      is_too_masked (String.mk e)) &&
  !(subSeq "@example.com".data e) &&
  (e.contains '@' && e.contains '.' && !startsSeq e "http".data)

/-- `clean_email` of `clean_csv.py`. -/
def clean_email (email : String) : String :=
  if email = "" then ""
  else
    match ((splitOnComma email.data).map trimSeq).filter emailOkSeg with
    | [] => ""
    | e :: _ => String.mk e

/-- Acceptance test applied to each comma-separated phone candidate in
`clean_phone` of `clean_csv.py`. -/
def phoneOkSeg (p : List Char) : Bool :=
  !(is_junk (String.mk p) || is_fake_phone (String.mk p) ||
      is_too_masked (String.mk p)) &&
  decide (7 ≤ (p.filter Char.isDigit).length)

/-- `clean_phone` of `clean_csv.py`. -/
def clean_phone (phone : String) : String :=
  if phone = "" then ""
  else
    match ((splitOnComma phone.data).map trimSeq).filter phoneOkSeg with
    | [] => ""
    | p :: _ => String.mk p

/-- The bare-domain roots rejected by `clean_linkedin`. -/
def bareDomains : List String :=
  ["https://linkedin.com", "http://linkedin.com", "https://www.linkedin.com"]

/-- Python `str.rstrip("/")`. -/
def rstripSlash (l : List Char) : List Char :=
  (l.reverse.dropWhile (fun c => c == '/')).reverse

/-- `clean_linkedin` of `clean_csv.py`. -/
def clean_linkedin (url : String) : String :=
  if url = "" then ""
  else if is_junk url then ""
  else if bareDomains.contains (String.mk (rstripSlash (trimSeq url.data))) then ""
  else if !subSeq "linkedin.com".data url.data then ""
  else if subSeq "authwall".data url.data then ""
  else String.mk (trimSeq url.data)

/-- `clean_role` of `clean_csv.py`. -/
def clean_role (role : String) : String :=
  if is_junk role then ""
  else if role = "" then ""
  else String.mk (trimSeq role.data)

/-- `clean_company` of `clean_csv.py`. -/
def clean_company (company : String) : String :=
  if is_junk company then ""
  else if company = "" then ""
  else String.mk (trimSeq company.data)

/-! ### `validate_enrichment.py`: phone validation state machine -/

/-- Mask characters of the regex `[Xx*\.]{3,}`. -/
def maskChar (c : Char) : Bool :=
  c == 'X' || c == 'x' || c == '*' || c == '.'

/-- Do the next two characters both belong to the mask class? -/
def startsMask2 : List Char → Bool
  | a :: b :: _ => maskChar a && maskChar b
  | _ => false

/-- Scan of `re.search(r"[Xx*\.]{3,}", phone)`: three consecutive mask
characters somewhere in the string. -/
def maskRun : List Char → Bool
  | [] => false
  | c :: t => (maskChar c && startsMask2 t) || maskRun t

/-- Four digits (no trailing boundary required). -/
def fourDigits : List Char → Bool
  | a :: b :: c :: d :: _ => a.isDigit && b.isDigit && c.isDigit && d.isDigit
  | _ => false

/-- Does `l` begin with `555-?\d{4}`? -/
def core5554 (l : List Char) : Bool :=
  match l with
  | '5' :: '5' :: '5' :: rest =>
    fourDigits rest ||
      (match rest with
       | '-' :: r2 => fourDigits r2
       | _ => false)
  | _ => false

/-- Scan of `re.search(r"555-?\d{4}", phone)` (no word boundaries). -/
def scan5554 : List Char → Bool
  | [] => false
  | c :: t => core5554 (c :: t) || scan5554 t

/-- Characters kept by `re.sub(r"[^\dX*x]", "", phone)`. -/
def keepPhoneChar (c : Char) : Bool :=
  c.isDigit || c == 'X' || c == '*' || c == 'x'

/-- The institutional / company-page source test of `heuristic_check`
(`company_page_patterns` matched with `re.IGNORECASE`).  All patterns are
lower-case literals (the `\.` escapes denote literal dots), so the match is
substring containment in the lower-cased source; `$` in `re.search` matches
at the end of the string or just before one trailing newline. -/
def companySuspect (source : String) : Bool :=
  let low := lowerSeq source.data
  subSeq "kroger.com".data low || subSeq "fiu.edu".data low ||
  subSeq "rit.edu".data low || subSeq "utdallas.edu".data low ||
  subSeq "fremont.gov".data low || subSeq "umich.edu".data low ||
  subSeq "stanford.edu".data low || subSeq "/contact-us".data low ||
  (endsSeq low "/contact".data || endsSeq low ("/contact".data ++ ['\n'])) ||
  subSeq "/faqs".data low

/-- `heuristic_check` of `validate_enrichment.py`: returns `(status, reason)`.
The `name` argument is unused, as in the source. -/
def heuristic_check (phone name source : String) : String × String :=
  if trimSeq phone.data = [] then ("empty", "no phone")
  else
    let cleaned := phone.data.filter keepPhoneChar
    if maskRun phone.data then
      ("partial", "masked/partial number: " ++ phone)
    else if scan5554 phone.data then
      ("fake", "likely fake 555 number: " ++ phone)
    else
      let digits := cleaned.filter Char.isDigit
      if digits.length < 7 then
        ("invalid", "too few digits (" ++ toString digits.length ++ "): " ++ phone)
      else if 15 < digits.length then
        ("invalid", "too many digits (" ++ toString digits.length ++ "): " ++ phone)
      else if subSeq "1234567".data phone.data || subSeq "123-4567".data phone.data then
        ("fake", "placeholder number: " ++ phone)
      else if subSeq "0000000".data phone.data || subSeq "000-0000".data phone.data then
        ("fake", "zeros pattern: " ++ phone)
      else if companySuspect source then
        ("suspect", "likely company/org number from " ++ source)
      else ("ok", "passed heuristic checks")

/-! CSV rows are ordered association lists from column name to value,
modelling Python's insertion-ordered `dict` rows. -/

/-- A CSV row: ordered mapping of column name to string value. -/
abbrev Row := List (String × String)

/-- Python `row.get(k, d)`. -/
def rowGet : Row → String → String → String
  | [], _, d => d
  | (k', v) :: t, k, d => if k' = k then v else rowGet t k d

/-- Python `row[k] = v`: replace in place, else append. -/
def rowSet : Row → String → String → Row
  | [], k, v => [(k, v)]
  | (k', v') :: t, k, v =>
    if k' = k then (k, v) :: t else (k', v') :: rowSet t k v

/-- Python `k in row`. -/
def rowHas : Row → String → Bool
  | [], _ => false
  | (k', _) :: t, k => if k' = k then true else rowHas t k

/-- Python `row.setdefault(k, v)`. -/
def rowSetD (r : Row) (k v : String) : Row :=
  if rowHas r k then r else r ++ [(k, v)]

/-- Decoded result of `verify_with_exa`: `is_valid` is `some true` / `some
false` only when the response holds the literal booleans (the source tests
`is True` / `is False`); every other value, including the API-error and
unparsable-answer fallbacks, is collapsed to `none`. -/
structure VerifyOutcome where
  is_valid : Option Bool
  reason : String
  corrected_phone : String

/-- The stripped phone the validation loop passes to `heuristic_check`
(`row.get("phone_number", "").strip()`). -/
def phoneArg (row : Row) : String :=
  String.mk (trimSeq (rowGet row "phone_number" "").data)

/-- The stripped name passed to `heuristic_check`. -/
def nameArg (row : Row) : String :=
  String.mk (trimSeq (rowGet row "name" "").data)

/-- The stripped `phone_source` passed to `heuristic_check`. -/
def sourceArg (row : Row) : String :=
  String.mk (trimSeq (rowGet row "phone_source" "").data)

/-- The unconditional column updates of phase 1: status, review note, and an
empty `verified_phone`. -/
def phase1Base (row : Row) (sr : String × String) : Row :=
  rowSet (rowSet (rowSet row "phone_status" sr.1)
    "phone_review_note" sr.2) "verified_phone" ""

/-- The status-directed part of phase 1: clear fake/invalid phones and mark
them removed, keep partial ones flagged, and mark suspicion. -/
def phase1Apply (row : Row) (sr : String × String) : Row × Bool :=
  let r0 := phase1Base row sr
  if sr.1 = "fake" then
    (rowSet (rowSet r0 "phone_number" "") "phone_status" "removed", false)
  else if sr.1 = "partial" then
    (rowSet r0 "phone_status" "partial", false)
  else if sr.1 = "invalid" then
    (rowSet (rowSet r0 "phone_number" "") "phone_status" "removed", false)
  else (r0, decide (sr.1 = "suspect"))

/-- Phase 1 of `main` in `validate_enrichment.py` on one row: run the
heuristics, record status / note / `verified_phone`, clear fake and invalid
phones, and report whether the row joins `suspect_rows`. -/
def phase1Row (row : Row) : Row × Bool :=
  phase1Apply row (heuristic_check (phoneArg row) (nameArg row) (sourceArg row))

/-- Phase 2 of `main` in `validate_enrichment.py` on one suspect row, given
the decoded verification outcome. -/
def phase2Row (row : Row) (v : VerifyOutcome) : Row :=
  if v.is_valid = some true then
    rowSet (rowSet row "phone_status" "verified")
      "phone_review_note" ("Verified: " ++ v.reason)
  else if v.is_valid = some false then
    let r := rowSet (rowSet row "phone_status" "rejected")
      "phone_review_note" ("Rejected: " ++ v.reason)
    if v.corrected_phone ≠ "" then rowSet r "verified_phone" v.corrected_phone
    else rowSet r "phone_number" ""
  else
    rowSet (rowSet row "phone_status" "unverified")
      "phone_review_note" ("Could not verify: " ++ v.reason)

/-- Composite effect of a full validation run on one row: phase 1 always,
phase 2 exactly when the row was left suspect. -/
def pipelineRow (v : VerifyOutcome) (row : Row) : Row :=
  let p := phase1Row row
  if p.2 then phase2Row p.1 v else p.1

/-- The whole validation run: each row is processed by the heuristics and
suspect rows are resolved against the verification oracle (indexed by row
position, the only dependence the output has on the external calls). -/
def runPipeline (oracle : Nat → VerifyOutcome) : Nat → List Row → List Row
  | _, [] => []
  | i, row :: rest => pipelineRow (oracle i) row :: runPipeline oracle (i + 1) rest

/-! ### `enrich_linkedin.py` / `enrich_phones.py`: batch reconciliation -/

/-- One decoded answer item of `enrich_linkedin.py` (`OUTPUT_SCHEMA` item).
Fields are optional because `match.get(...)` tolerates absent keys. -/
structure LiAnswer where
  name : Option String
  role : Option String
  email : Option String
  linkedin : Option String
  additional_links : Option (List String)

/-- One decoded answer item of `enrich_phones.py`. -/
structure PhAnswer where
  name : Option String
  phone_number : Option String
  email : Option String
  source : Option String

/-- Normalized key: `r.get("name", "").strip().lower()`. -/
def normKey (o : Option String) : String :=
  String.mk (lowerSeq (trimSeq (o.getD "").data))

/-- Normalized key of a CSV row: `row.get("name", "").strip().lower()`. -/
def rowKey (row : Row) : String :=
  String.mk (lowerSeq (trimSeq (rowGet row "name" "").data))

/-- The `result_map` lookup of `match_results` in `enrich_linkedin.py`:
results are indexed by non-empty normalized name, later entries shadowing
earlier ones (Python dict insertion). -/
def liLookup (results : List LiAnswer) (key : String) : Option LiAnswer :=
  results.foldl
    (fun acc r =>
      let k := normKey r.name
      if k ≠ "" ∧ k = key then some r else acc)
    none

/-- The `result_map` lookup of `match_results` in `enrich_phones.py`. -/
def phLookup (results : List PhAnswer) (key : String) : Option PhAnswer :=
  results.foldl
    (fun acc r =>
      let k := normKey r.name
      if k ≠ "" ∧ k = key then some r else acc)
    none

/-- Python `"; ".join(links)`. -/
def joinSC (links : List String) : String :=
  String.intercalate "; " links

/-- Body of the per-row loop of `match_results` in `enrich_linkedin.py`. -/
def liMatchRow (results : List LiAnswer) (row : Row) : Row :=
  match liLookup results (rowKey row) with
  | some m =>
    let r1 := rowSet row "linkedin" (m.linkedin.getD "")
    let r2 := rowSet r1 "role" (m.role.getD (rowGet r1 "role" ""))
    let r3 := rowSet r2 "email" (m.email.getD "")
    rowSet r3 "additional_links" (joinSC (m.additional_links.getD []))
  | none =>
    rowSetD (rowSetD (rowSetD row "linkedin" "") "email" "") "additional_links" ""

/-- Body of the per-row loop of `match_results` in `enrich_phones.py`. -/
def phMatchRow (results : List PhAnswer) (row : Row) : Row :=
  match phLookup results (rowKey row) with
  | some m =>
    let r1 := rowSet row "phone_number" (m.phone_number.getD "")
    let r2 := rowSet r1 "email" (m.email.getD "")
    rowSet r2 "source" (m.source.getD "")
  | none =>
    rowSetD (rowSetD (rowSetD row "phone_number" "") "email" "") "source" ""

/-- `match_results` of `enrich_linkedin.py` over a whole batch. -/
def liMatchBatch (results : List LiAnswer) (rows : List Row) : List Row :=
  rows.map (liMatchRow results)

/-- `match_results` of `enrich_phones.py` over a whole batch. -/
def phMatchBatch (results : List PhAnswer) (rows : List Row) : List Row :=
  rows.map (phMatchRow results)

/-! ### Response-shape decoding of `enrich_batch` -/

/-- JSON values, as produced by `json.loads`. -/
inductive JVal where
  | jnull : JVal
  | jbool : Bool → JVal
  | jnum : Int → JVal
  | jstr : String → JVal
  | jarr : List JVal → JVal
  | jobj : List (String × JVal) → JVal

/-- First binding of a key in a JSON object. -/
def jlookup : List (String × JVal) → String → Option JVal
  | [], _ => none
  | (k', v) :: t, k => if k' = k then some v else jlookup t k

/-- Python `data.get(k, d)`: defined on dicts, an `AttributeError` on every
other value (the source calls it outside its `try` block). -/
def pyDictGet (j : JVal) (k : String) (d : JVal) : Except String JVal :=
  match j with
  | .jobj fs => .ok ((jlookup fs k).getD d)
  | _ => .error "AttributeError"

/-- The tail of `enrich_batch` after a string answer has been decoded (or for
a non-string answer): dict answers have their `people` field extracted with
the dict itself, wrapped in a list, as default; then any non-list becomes
the empty result list. -/
def postShape : JVal → List JVal
  | .jobj fs =>
    (match jlookup fs "people" with
     | some (.jarr xs) => xs
     | some _ => []
     | none => [.jobj fs])
  | .jarr xs => xs
  | _ => []

/-- The answer-shape fallback chain of `enrich_batch`: a string answer is
first passed to `json.loads` (modelled by the `parse` parameter, `none`
meaning `JSONDecodeError`), then the dict / list shape handling runs. -/
def decodeAnswer (parse : String → Option JVal) : JVal → List JVal
  | .jstr s =>
    (match parse s with
     | none => []
     | some j => postShape j)
  | .jbool b => postShape (.jbool b)
  | .jnum n => postShape (.jnum n)
  | .jnull => postShape .jnull
  | .jarr xs => postShape (.jarr xs)
  | .jobj fs => postShape (.jobj fs)

/-- `enrich_batch` of `enrich_linkedin.py` / `enrich_phones.py` from the
point the HTTP call resolves: `none` stands for any exception inside the
`try` block (HTTP error, transport failure, non-JSON body), on which the
empty result list is returned; otherwise `data.get("answer", [])` feeds the
shape fallback chain. -/
def enrichDecode (parse : String → Option JVal) (outcome : Option JVal) :
    Except String (List JVal) :=
  match outcome with
  | none => .ok []
  | some data => (pyDictGet data "answer" (.jarr [])).map (decodeAnswer parse)

/-! ### Specification-side definitions and concrete test data -/

/-- The fake-phone predicate exactly as the specification words it: value in
the denylist, or containing "555" adjacent to a 4-digit group optionally
separated by `-`, `.`, or space (no word-boundary requirement), or a
digit-only form of length at least 7 with at most 2 distinct digits.
Written from the spec, for comparison against `is_fake_phone`. -/
def spec_is_fake_phone_claim (v : String) : Bool :=
  FAKE_PHONES.contains v || scanNB v.data ||
    (let digits := v.data.filter Char.isDigit
     if 7 ≤ digits.length ∧ distinctCount digits ≤ 2 then true else false)

/-- Indeterminate verification outcome (API error / unparsable answer). -/
def vNone : VerifyOutcome := ⟨none, "", ""⟩

/-- A suspect-source row used as concrete test data: the phone passes the
heuristics but the source matches the `fiu.edu` institutional pattern. -/
def suspectRow : Row :=
  [("name", "Jane Roe"), ("phone_number", "+13056667777"),
   ("phone_source", "https://x.fiu.edu/staff"), ("email", "j@x.com")]

/-- Verification outcome rejecting the phone and supplying a correction. -/
def vRej : VerifyOutcome := ⟨some false, "org line", "+13056668888"⟩

/-- Concrete batch of 5 input rows for the reconciliation test. -/
def demoRows : List Row :=
  [[("name", "Alice A")], [("name", "Bob B")], [("name", "Cara C")],
   [("name", "Dan D")], [("name", "Eve E")]]

/-- Answer payload matching exactly 3 of the 5 demo rows by name. -/
def demoResults : List LiAnswer :=
  [⟨some "Alice A", some "CEO", some "a@x.com", some "li-a", some ["t.co/a"]⟩,
   ⟨some "bob b", some "CTO", some "b@x.com", some "li-b", some []⟩,
   ⟨some " Cara C ", none, some "c@x.com", some "li-c", some ["t.co/c", "c.me"]⟩]

/-- Expected output of reconciling `demoResults` onto `demoRows`: the three
matched rows populated, the two unmatched rows given empty defaults. -/
def demoExpected : List Row :=
  [[("name", "Alice A"), ("linkedin", "li-a"), ("role", "CEO"),
    ("email", "a@x.com"), ("additional_links", "t.co/a")],
   [("name", "Bob B"), ("linkedin", "li-b"), ("role", "CTO"),
    ("email", "b@x.com"), ("additional_links", "")],
   [("name", "Cara C"), ("linkedin", "li-c"), ("role", ""),
    ("email", "c@x.com"), ("additional_links", "t.co/c; c.me")],
   [("name", "Dan D"), ("linkedin", ""), ("email", ""),
    ("additional_links", "")],
   [("name", "Eve E"), ("linkedin", ""), ("email", ""),
    ("additional_links", "")]]

/-- A row with pre-existing contact fields, matched by the third demo
result (whose `role` key is absent). -/
def c10Row : Row :=
  [("name", "Cara C"), ("linkedin", "old-li"), ("email", "old-em"),
   ("role", "Chef")]

/-! ### Library lemmas on trimming, scanning and rows -/

theorem dropWhile_idem (p : Char → Bool) (l : List Char) :
    (l.dropWhile p).dropWhile p = l.dropWhile p := by
  induction l with
  | nil => rfl
  | cons c t ih =>
    by_cases h : p c
    · simp [List.dropWhile_cons, h, ih]
    · simp [List.dropWhile_cons, h]

theorem dropWhile_head_false (p : Char → Bool) (l : List Char) (c : Char)
    (t : List Char) (h : l.dropWhile p = c :: t) : p c = false := by
  induction l with
  | nil => simp at h
  | cons a l ih =>
    by_cases ha : p a
    · exact ih (by simpa [List.dropWhile_cons, ha] using h)
    · rw [List.dropWhile_cons, if_neg ha] at h
      cases h
      simpa using ha

theorem exists_append_dropWhile (p : Char → Bool) (l : List Char) :
    ∃ a, l = a ++ l.dropWhile p := by
  induction l with
  | nil => exact ⟨[], rfl⟩
  | cons c t ih =>
    by_cases h : p c
    · obtain ⟨a, ha⟩ := ih
      exact ⟨c :: a, by simp [List.dropWhile_cons, h, ← ha]⟩
    · exact ⟨[], by simp [List.dropWhile_cons, h]⟩

theorem exists_trimEnd_append (l : List Char) : ∃ b, l = trimEnd l ++ b := by
  obtain ⟨a, ha⟩ := exists_append_dropWhile pySpace l.reverse
  refine ⟨a.reverse, ?_⟩
  unfold trimEnd
  calc l = l.reverse.reverse := by rw [List.reverse_reverse]
  _ = (a ++ l.reverse.dropWhile pySpace).reverse := by rw [← ha]
  _ = (l.reverse.dropWhile pySpace).reverse ++ a.reverse := by
        rw [List.reverse_append]

theorem trimEnd_idem (l : List Char) : trimEnd (trimEnd l) = trimEnd l := by
  unfold trimEnd
  rw [List.reverse_reverse, dropWhile_idem]

theorem dropWhile_trimEnd_dropWhile (l : List Char) :
    (trimEnd (l.dropWhile pySpace)).dropWhile pySpace
      = trimEnd (l.dropWhile pySpace) := by
  cases h : trimEnd (l.dropWhile pySpace) with
  | nil => rfl
  | cons c t =>
    obtain ⟨b, hb⟩ := exists_trimEnd_append (l.dropWhile pySpace)
    rw [h] at hb
    have hdw : l.dropWhile pySpace = c :: (t ++ b) := by
      rw [hb]; rfl
    have hdw2 : (l.dropWhile pySpace).dropWhile pySpace = c :: (t ++ b) := by
      rw [dropWhile_idem, hdw]
    have hc : pySpace c = false := dropWhile_head_false pySpace _ c _ hdw2
    simp [List.dropWhile_cons, hc]

theorem trimSeq_idem (l : List Char) : trimSeq (trimSeq l) = trimSeq l := by
  unfold trimSeq
  rw [dropWhile_trimEnd_dropWhile, trimEnd_idem]

theorem exists_trimSeq_decomp (l : List Char) :
    ∃ a b, l = a ++ trimSeq l ++ b := by
  obtain ⟨a, ha⟩ := exists_append_dropWhile pySpace l
  obtain ⟨b, hb⟩ := exists_trimEnd_append (l.dropWhile pySpace)
  refine ⟨a, b, ?_⟩
  unfold trimSeq
  rw [List.append_assoc, ← hb, ← ha]

theorem mem_of_mem_trimSeq {c : Char} {l : List Char}
    (h : c ∈ trimSeq l) : c ∈ l := by
  obtain ⟨a, b, hl⟩ := exists_trimSeq_decomp l
  rw [hl]
  simp only [List.mem_append]
  exact Or.inl (Or.inr h)

theorem mem_dropWhile_of_not (p : Char → Bool) {c : Char} {l : List Char}
    (hc : c ∈ l) (hp : p c = false) : c ∈ l.dropWhile p := by
  induction l with
  | nil => simp at hc
  | cons a t ih =>
    by_cases ha : p a
    · rw [List.dropWhile_cons, if_pos ha]
      rcases List.mem_cons.mp hc with h | h
      · subst h; rw [hp] at ha; simp at ha
      · exact ih h
    · rw [List.dropWhile_cons, if_neg ha]
      exact hc

theorem trimSeq_ne_nil_of_mem {c : Char} {l : List Char}
    (hc : c ∈ l) (hp : pySpace c = false) : trimSeq l ≠ [] := by
  have h1 : c ∈ l.dropWhile pySpace := mem_dropWhile_of_not pySpace hc hp
  have h2 : c ∈ (l.dropWhile pySpace).reverse := List.mem_reverse.mpr h1
  have h3 : c ∈ (l.dropWhile pySpace).reverse.dropWhile pySpace :=
    mem_dropWhile_of_not pySpace h2 hp
  intro hnil
  unfold trimSeq trimEnd at hnil
  rw [List.reverse_eq_nil_iff] at hnil
  rw [hnil] at h3
  simp at h3

theorem dropWhile_append_decomp (p : Char → Bool) (c : Char) (n b : List Char)
    (hc : p c = false) :
    ∀ a : List Char, ∃ a', (a ++ (c :: n) ++ b).dropWhile p = a' ++ (c :: n) ++ b := by
  intro a
  induction a with
  | nil => exact ⟨[], by simp [List.dropWhile_cons, hc]⟩
  | cons x a ih =>
    by_cases hx : p x
    · obtain ⟨a', ha'⟩ := ih
      exact ⟨a', by simpa [List.dropWhile_cons, hx] using ha'⟩
    · exact ⟨x :: a, by simp [List.dropWhile_cons, hx]⟩

theorem trimSeq_infix_decomp (n : List Char) (hne : n ≠ [])
    (hns : ∀ c ∈ n, pySpace c = false) (a b : List Char) :
    ∃ a' b', trimSeq (a ++ n ++ b) = a' ++ n ++ b' := by
  cases n with
  | nil => exact absurd rfl hne
  | cons c m =>
    obtain ⟨a1, ha1⟩ := dropWhile_append_decomp pySpace c m b
      (hns c (List.mem_cons_self c m)) a
    have hrev : (a1 ++ (c :: m) ++ b).reverse
        = b.reverse ++ (c :: m).reverse ++ a1.reverse := by
      simp [List.reverse_append, List.append_assoc]
    cases hrm : (c :: m).reverse with
    | nil => simp at hrm
    | cons d w =>
      have hd : d ∈ c :: m := by
        have : d ∈ (c :: m).reverse := by rw [hrm]; exact List.mem_cons_self d w
        exact List.mem_reverse.mp this
      obtain ⟨b1, hb1⟩ := dropWhile_append_decomp pySpace d w a1.reverse
        (hns d hd) b.reverse
      refine ⟨a1, b1.reverse, ?_⟩
      unfold trimSeq trimEnd
      rw [ha1]
      have h2 : (a1 ++ (c :: m) ++ b).reverse
          = b.reverse ++ (d :: w) ++ a1.reverse := by
        rw [← hrm]
        simp [List.reverse_append, List.append_assoc]
      rw [h2, hb1, ← hrm]
      simp [List.reverse_append, List.reverse_reverse, List.append_assoc]

theorem startsSeq_iff (l n : List Char) :
    startsSeq l n = true ↔ ∃ b, l = n ++ b := by
  induction n generalizing l with
  | nil => simp [startsSeq]
  | cons c m ih =>
    cases l with
    | nil =>
      simp only [startsSeq, List.cons_append]
      constructor
      · intro h; cases h
      · rintro ⟨b, hb⟩; cases hb
    | cons a t =>
      simp only [startsSeq, Bool.and_eq_true, beq_iff_eq, ih]
      constructor
      · rintro ⟨rfl, b, rfl⟩; exact ⟨b, rfl⟩
      · rintro ⟨b, hb⟩
        injection hb with h1 h2
        exact ⟨h1, b, h2⟩

theorem subSeq_iff (n l : List Char) :
    subSeq n l = true ↔ ∃ a b, l = a ++ n ++ b := by
  induction l with
  | nil =>
    simp only [subSeq, startsSeq_iff]
    constructor
    · rintro ⟨b, hb⟩; exact ⟨[], b, hb⟩
    · rintro ⟨a, b, hb⟩
      refine ⟨b, ?_⟩
      rcases a with _ | ⟨x, a⟩
      · simpa using hb
      · simp at hb
  | cons c t ih =>
    simp only [subSeq, Bool.or_eq_true, startsSeq_iff, ih]
    constructor
    · rintro (⟨b, hb⟩ | ⟨a, b, hb⟩)
      · exact ⟨[], b, by simpa using hb⟩
      · exact ⟨c :: a, b, by simp [hb]⟩
    · rintro ⟨a, b, hb⟩
      rcases a with _ | ⟨x, a⟩
      · exact Or.inl ⟨b, by simpa using hb⟩
      · right
        injection hb with h1 h2
        exact ⟨a, b, h2⟩

theorem subSeq_trimSeq_of_subSeq {n l : List Char} (hne : n ≠ [])
    (hns : ∀ c ∈ n, pySpace c = false) (h : subSeq n l = true) :
    subSeq n (trimSeq l) = true := by
  obtain ⟨a, b, hl⟩ := (subSeq_iff n l).mp h
  subst hl
  obtain ⟨a', b', hd⟩ := trimSeq_infix_decomp n hne hns a b
  exact (subSeq_iff n _).mpr ⟨a', b', hd⟩

theorem subSeq_of_subSeq_trimSeq {n l : List Char}
    (h : subSeq n (trimSeq l) = true) : subSeq n l = true := by
  obtain ⟨a, b, hd⟩ := (subSeq_iff n (trimSeq l)).mp h
  obtain ⟨x, y, hl⟩ := exists_trimSeq_decomp l
  refine (subSeq_iff n l).mpr ⟨x ++ a, b ++ y, ?_⟩
  rw [hl, hd]
  simp [List.append_assoc]

theorem mem_of_subSeq {n l : List Char} (h : subSeq n l = true) {c : Char}
    (hc : c ∈ n) : c ∈ l := by
  obtain ⟨a, b, hl⟩ := (subSeq_iff n l).mp h
  rw [hl]
  simp only [List.mem_append]
  exact Or.inl (Or.inr hc)

theorem splitOnComma_ne_nil (l : List Char) : splitOnComma l ≠ [] := by
  induction l with
  | nil => simp [splitOnComma]
  | cons c t ih =>
    by_cases hc : c = ','
    · simp [splitOnComma, hc]
    · simp only [splitOnComma, if_neg hc]
      cases h : splitOnComma t with
      | nil => exact absurd h ih
      | cons g gs => simp

theorem mem_splitOnComma_no_comma {l g : List Char}
    (hg : g ∈ splitOnComma l) : ',' ∉ g := by
  induction l generalizing g with
  | nil =>
    simp only [splitOnComma, List.mem_singleton] at hg
    subst hg; simp
  | cons c t ih =>
    by_cases hc : c = ','
    · simp only [splitOnComma, if_pos hc, List.mem_cons] at hg
      rcases hg with rfl | hg
      · simp
      · exact ih hg
    · simp only [splitOnComma, if_neg hc] at hg
      cases h : splitOnComma t with
      | nil => exact absurd h (splitOnComma_ne_nil t)
      | cons g' gs =>
        rw [h] at hg
        rcases List.mem_cons.mp hg with rfl | hg2
        · intro hmem
          rcases List.mem_cons.mp hmem with h1 | h1
          · exact hc h1.symm
          · exact ih (h ▸ List.mem_cons_self g' gs) h1
        · exact ih (h ▸ List.mem_cons_of_mem g' hg2)

theorem splitOnComma_of_no_comma {l : List Char}
    (h : ∀ c ∈ l, c ≠ ',') : splitOnComma l = [l] := by
  induction l with
  | nil => rfl
  | cons c t ih =>
    have hc : c ≠ ',' := h c (List.mem_cons_self c t)
    have ht : splitOnComma t = [t] :=
      ih (fun d hd => h d (List.mem_cons_of_mem c hd))
    simp [splitOnComma, hc, ht]

theorem rowGet_rowSet_self (r : Row) (k v d : String) :
    rowGet (rowSet r k v) k d = v := by
  induction r with
  | nil => simp [rowSet, rowGet]
  | cons p t ih =>
    obtain ⟨k', v'⟩ := p
    by_cases h : k' = k
    · simp [rowSet, h, rowGet]
    · simp [rowSet, h, rowGet, ih]

theorem rowGet_rowSet_ne (r : Row) {k k' : String} (v d : String)
    (h : k' ≠ k) : rowGet (rowSet r k v) k' d = rowGet r k' d := by
  induction r with
  | nil => simp [rowSet, rowGet, Ne.symm h]
  | cons p t ih =>
    obtain ⟨k2, v2⟩ := p
    by_cases h2 : k2 = k
    · subst h2
      simp [rowSet, rowGet, Ne.symm h]
    · simp only [rowSet, if_neg h2, rowGet]
      by_cases h3 : k2 = k'
      · simp [h3]
      · simp [h3, ih]

theorem rowGet_append (r s : Row) (k d : String) :
    rowGet (r ++ s) k d = rowGet r k (rowGet s k d) := by
  induction r with
  | nil => simp [rowGet]
  | cons p t ih =>
    obtain ⟨k', v⟩ := p
    by_cases h : k' = k
    · simp [rowGet, h]
    · simp [rowGet, h, ih]

theorem rowGet_default_irrel {r : Row} {k : String} (h : rowHas r k = true)
    (d₁ d₂ : String) : rowGet r k d₁ = rowGet r k d₂ := by
  induction r with
  | nil => simp [rowHas] at h
  | cons p t ih =>
    obtain ⟨k', v⟩ := p
    by_cases h2 : k' = k
    · simp [rowGet, h2]
    · simp only [rowHas, if_neg h2] at h
      simp [rowGet, h2, ih h]

theorem rowGet_rowSetD_zero (r : Row) (k k' : String) :
    rowGet (rowSetD r k "") k' "" = rowGet r k' "" := by
  unfold rowSetD
  by_cases h : rowHas r k
  · simp [h]
  · simp only [h, Bool.false_eq_true, if_false, rowGet_append]
    have : rowGet [(k, "")] k' "" = "" := by
      by_cases h2 : k = k' <;> simp [rowGet, h2]
    rw [this]

theorem rowGet_rowSetD_of_has (r : Row) (k k' v d : String)
    (h : rowHas r k' = true) : rowGet (rowSetD r k v) k' d = rowGet r k' d := by
  unfold rowSetD
  by_cases h2 : rowHas r k
  · simp [h2]
  · simp only [h2, Bool.false_eq_true, if_false, rowGet_append]
    exact rowGet_default_irrel h _ _

theorem maskChar_not_space {c : Char} (h : maskChar c = true) :
    pySpace c = false := by
  unfold maskChar at h
  rcases Bool.or_eq_true_iff.mp h with h1 | h1
  · rcases Bool.or_eq_true_iff.mp h1 with h2 | h2
    · rcases Bool.or_eq_true_iff.mp h2 with h3 | h3
      · rw [beq_iff_eq] at h3; subst h3; rfl
      · rw [beq_iff_eq] at h3; subst h3; rfl
    · rw [beq_iff_eq] at h2; subst h2; rfl
  · rw [beq_iff_eq] at h1; subst h1; rfl

theorem maskRun_iff (l : List Char) :
    maskRun l = true ↔ ∃ a c1 c2 c3 b, l = a ++ [c1, c2, c3] ++ b ∧
      maskChar c1 = true ∧ maskChar c2 = true ∧ maskChar c3 = true := by
  induction l with
  | nil =>
    simp only [maskRun, Bool.false_eq_true, false_iff]
    rintro ⟨a, c1, c2, c3, b, hl, -, -, -⟩
    cases a <;> simp at hl
  | cons c t ih =>
    simp only [maskRun, Bool.or_eq_true, Bool.and_eq_true, ih]
    constructor
    · rintro (⟨hc, h2⟩ | ⟨a, c1, c2, c3, b, hl, h1, h2', h3⟩)
      · cases t with
        | nil => simp [startsMask2] at h2
        | cons c2 t2 =>
          cases t2 with
          | nil => simp [startsMask2] at h2
          | cons c3 t3 =>
            have hh : maskChar c2 = true ∧ maskChar c3 = true := by
              simpa [startsMask2, Bool.and_eq_true] using h2
            exact ⟨[], c, c2, c3, t3, rfl, hc, hh.1, hh.2⟩
      · exact ⟨c :: a, c1, c2, c3, b, by rw [hl]; rfl, h1, h2', h3⟩
    · rintro ⟨a, c1, c2, c3, b, hl, h1, h2', h3⟩
      cases a with
      | nil =>
        injection hl with hc hl2
        subst hc
        left
        refine ⟨h1, ?_⟩
        have hl2' : t = c2 :: c3 :: b := by simpa using hl2
        rw [hl2']
        simp [startsMask2, h2', h3]
      | cons x a' =>
        injection hl with hx hl2
        exact Or.inr ⟨a', c1, c2, c3, b, hl2, h1, h2', h3⟩

theorem maskRun_trimSeq {l : List Char} (h : maskRun l = true) :
    maskRun (trimSeq l) = true := by
  obtain ⟨a, c1, c2, c3, b, hl, h1, h2, h3⟩ := (maskRun_iff l).mp h
  have hns : ∀ c ∈ [c1, c2, c3], pySpace c = false := by
    intro c hc
    have hc' : c = c1 ∨ c = c2 ∨ c = c3 := by simpa using hc
    rcases hc' with rfl | rfl | rfl
    · exact maskChar_not_space h1
    · exact maskChar_not_space h2
    · exact maskChar_not_space h3
  obtain ⟨a', b', hd⟩ := trimSeq_infix_decomp [c1, c2, c3] (by simp) hns a b
  rw [hl]
  exact (maskRun_iff _).mpr ⟨a', c1, c2, c3, b', hd, h1, h2, h3⟩

theorem maskRun_mem {l : List Char} (h : maskRun l = true) :
    ∃ c ∈ l, maskChar c = true := by
  obtain ⟨a, c1, c2, c3, b, hl, h1, -, -⟩ := (maskRun_iff l).mp h
  exact ⟨c1, by rw [hl]; simp, h1⟩

theorem scan555b_char (l : List Char) : ∀ prev, scan555b prev l = true ↔
    ((bdryPrev prev = true ∧ core555b l = true) ∨
      ∃ a c b, l = a ++ c :: b ∧ wordChar c = false ∧ core555b b = true) := by
  induction l with
  | nil =>
    intro prev
    simp only [scan555b, Bool.false_eq_true, false_iff]
    rintro (⟨-, h⟩ | ⟨a, c, b, hl, -, -⟩)
    · simp [core555b] at h
    · cases a <;> simp at hl
  | cons c t ih =>
    intro prev
    simp only [scan555b, Bool.or_eq_true, Bool.and_eq_true, ih (some c)]
    constructor
    · rintro (⟨hb, hc⟩ | ⟨hb, hc⟩ | ⟨a, d, b, ht, hd, hcb⟩)
      · exact Or.inl ⟨hb, hc⟩
      · exact Or.inr ⟨[], c, t, rfl, by simpa [bdryPrev] using hb, hc⟩
      · exact Or.inr ⟨c :: a, d, b, by rw [ht]; rfl, hd, hcb⟩
    · rintro (⟨hb, hc⟩ | ⟨a, d, b, hl, hd, hcb⟩)
      · exact Or.inl ⟨hb, hc⟩
      · cases a with
        | nil =>
          injection hl with h1 h2
          subst h1
          subst h2
          exact Or.inr (Or.inl ⟨by simp [bdryPrev, hd], hcb⟩)
        | cons x a' =>
          injection hl with h1 h2
          exact Or.inr (Or.inr ⟨a', d, b, h2, hd, hcb⟩)

theorem scan555b_none_iff (l : List Char) :
    scan555b none l = true ↔ spec555 l := by
  have h := scan555b_char l none
  simpa [bdryPrev, spec555] using h

theorem heuristic_status_mem (p n s : String) :
    (heuristic_check p n s).1 ∈
      (["empty", "partial", "fake", "invalid", "suspect", "ok"] : List String) := by
  simp only [heuristic_check]
  split_ifs <;> simp

theorem String_mk_eq_empty {l : List Char} : String.mk l = "" ↔ l = [] := by
  constructor
  · intro h
    exact congrArg String.data h
  · intro h
    rw [h]

theorem data_mk (l : List Char) : (String.mk l).data = l := rfl

theorem spec555_nil : ¬ spec555 ([] : List Char) := by
  rintro (h | ⟨a, c, b, hl, -, -⟩)
  · simp [core555b] at h
  · cases a <;> simp at hl

theorem is_junk_eq (val : String) : is_junk val
    = junkPhrases.contains (String.mk (lowerSeq (trimSeq val.data))) := by
  unfold is_junk
  split_ifs with h
  · subst h
    decide
  · rfl

theorem is_junk_trim (u : String) :
    is_junk (String.mk (trimSeq u.data)) = is_junk u := by
  rw [is_junk_eq, is_junk_eq u, data_mk, trimSeq_idem]

theorem filter_first_seg (p : List Char → Bool) {e : List Char}
    (hp : p e = true) (hc : ∀ c ∈ e, c ≠ ',') (ht : trimSeq e = e) :
    ((splitOnComma e).map trimSeq).filter p = [e] := by
  rw [splitOnComma_of_no_comma hc]
  simp [ht, hp]

theorem clean_email_fix {e : List Char} (hp : emailOkSeg e = true)
    (hc : ∀ c ∈ e, c ≠ ',') (ht : trimSeq e = e) :
    clean_email (String.mk e) = String.mk e := by
  have hne : e ≠ [] := by
    intro h
    rw [h] at hp
    exact absurd hp (by decide)
  unfold clean_email
  rw [if_neg (fun h => hne (String_mk_eq_empty.mp h)), data_mk,
    filter_first_seg emailOkSeg hp hc ht]

theorem clean_email_cases (s : String) :
    clean_email s = "" ∨
      ∃ e, clean_email s = String.mk e ∧ emailOkSeg e = true ∧
        (∀ c ∈ e, c ≠ ',') ∧ trimSeq e = e := by
  unfold clean_email
  split_ifs with h0
  · exact Or.inl rfl
  · cases hfil : ((splitOnComma s.data).map trimSeq).filter emailOkSeg with
    | nil =>
      exact Or.inl rfl
    | cons e rest =>
      have hmem : e ∈ ((splitOnComma s.data).map trimSeq).filter emailOkSeg := by
        rw [hfil]
        exact List.mem_cons_self e rest
      have hp : emailOkSeg e = true := List.of_mem_filter hmem
      obtain ⟨g, hg, hge⟩ := List.mem_map.mp (List.mem_of_mem_filter hmem)
      refine Or.inr ⟨e, rfl, hp, ?_, ?_⟩
      · intro c hcm heq
        refine mem_splitOnComma_no_comma hg ?_
        rw [← heq, ← hge] at *
        exact mem_of_mem_trimSeq hcm
      · rw [← hge, trimSeq_idem]

theorem clean_phone_fix {e : List Char} (hp : phoneOkSeg e = true)
    (hc : ∀ c ∈ e, c ≠ ',') (ht : trimSeq e = e) :
    clean_phone (String.mk e) = String.mk e := by
  have hne : e ≠ [] := by
    intro h
    rw [h] at hp
    exact absurd hp (by decide)
  unfold clean_phone
  rw [if_neg (fun h => hne (String_mk_eq_empty.mp h)), data_mk,
    filter_first_seg phoneOkSeg hp hc ht]

theorem clean_phone_cases (s : String) :
    clean_phone s = "" ∨
      ∃ e, clean_phone s = String.mk e ∧ phoneOkSeg e = true ∧
        (∀ c ∈ e, c ≠ ',') ∧ trimSeq e = e := by
  unfold clean_phone
  split_ifs with h0
  · exact Or.inl rfl
  · cases hfil : ((splitOnComma s.data).map trimSeq).filter phoneOkSeg with
    | nil =>
      exact Or.inl rfl
    | cons e rest =>
      have hmem : e ∈ ((splitOnComma s.data).map trimSeq).filter phoneOkSeg := by
        rw [hfil]
        exact List.mem_cons_self e rest
      have hp : phoneOkSeg e = true := List.of_mem_filter hmem
      obtain ⟨g, hg, hge⟩ := List.mem_map.mp (List.mem_of_mem_filter hmem)
      refine Or.inr ⟨e, rfl, hp, ?_, ?_⟩
      · intro c hcm heq
        refine mem_splitOnComma_no_comma hg ?_
        rw [← heq, ← hge] at *
        exact mem_of_mem_trimSeq hcm
      · rw [← hge, trimSeq_idem]

theorem nospace_linkedin : ∀ c ∈ "linkedin.com".data, pySpace c = false := by
  decide

theorem clean_linkedin_pass (url : String)
    (h1 : is_junk url = false)
    (h2 : bareDomains.contains (String.mk (rstripSlash (trimSeq url.data))) = false)
    (h3 : subSeq "linkedin.com".data url.data = true)
    (h4 : subSeq "authwall".data url.data = false) :
    clean_linkedin url = String.mk (trimSeq url.data) := by
  have hne : url ≠ "" := by
    intro h
    rw [h] at h3
    exact absurd h3 (by decide)
  unfold clean_linkedin
  rw [if_neg hne, if_neg (by rw [h1]; simp), if_neg (by rw [h2]; simp),
    if_neg (by rw [h3]; simp), if_neg (by rw [h4]; simp)]

theorem clean_linkedin_empty (url : String)
    (h : is_junk url = true ∨
      bareDomains.contains (String.mk (rstripSlash (trimSeq url.data))) = true ∨
      subSeq "linkedin.com".data url.data = false ∨
      subSeq "authwall".data url.data = true) :
    clean_linkedin url = "" := by
  unfold clean_linkedin
  split_ifs with g0 g1 g2 g3 g4
  · rfl
  · rfl
  · rfl
  · rfl
  · rfl
  · rcases h with h | h | h | h
    · exact absurd h g1
    · exact absurd h g2
    · exact absurd (by rw [h]; rfl) g3
    · exact absurd h g4

theorem clean_linkedin_idem (s : String) :
    clean_linkedin (clean_linkedin s) = clean_linkedin s := by
  by_cases h1 : is_junk s = true
  · rw [clean_linkedin_empty s (Or.inl h1)]
    rfl
  · replace h1 : is_junk s = false := eq_false_of_ne_true h1
    by_cases h2 : bareDomains.contains (String.mk (rstripSlash (trimSeq s.data))) = true
    · rw [clean_linkedin_empty s (Or.inr (Or.inl h2))]
      rfl
    · replace h2 : bareDomains.contains (String.mk (rstripSlash (trimSeq s.data))) = false :=
        eq_false_of_ne_true h2
      by_cases h3 : subSeq "linkedin.com".data s.data = true
      · by_cases h4 : subSeq "authwall".data s.data = true
        · rw [clean_linkedin_empty s (Or.inr (Or.inr (Or.inr h4)))]
          rfl
        · replace h4 : subSeq "authwall".data s.data = false := eq_false_of_ne_true h4
          rw [clean_linkedin_pass s h1 h2 h3 h4]
          have h1' : is_junk (String.mk (trimSeq s.data)) = false := by
            rw [is_junk_trim]
            exact h1
          have h2' : bareDomains.contains
              (String.mk (rstripSlash (trimSeq (String.mk (trimSeq s.data)).data)))
                = false := by
            rw [data_mk, trimSeq_idem]
            exact h2
          have h3' : subSeq "linkedin.com".data
              (String.mk (trimSeq s.data)).data = true := by
            rw [data_mk]
            exact subSeq_trimSeq_of_subSeq (by simp) nospace_linkedin h3
          have h4' : subSeq "authwall".data
              (String.mk (trimSeq s.data)).data = false := by
            rw [data_mk]
            cases hx : subSeq "authwall".data (trimSeq s.data) with
            | false => rfl
            | true =>
              rw [subSeq_of_subSeq_trimSeq hx] at h4
              cases h4
          rw [clean_linkedin_pass _ h1' h2' h3' h4', data_mk, trimSeq_idem]
      · replace h3 : subSeq "linkedin.com".data s.data = false := eq_false_of_ne_true h3
        rw [clean_linkedin_empty s (Or.inr (Or.inr (Or.inl h3)))]
        rfl

theorem clean_role_idem (s : String) :
    clean_role (clean_role s) = clean_role s := by
  by_cases h1 : is_junk s = true
  · have : clean_role s = "" := by
      unfold clean_role
      rw [if_pos h1]
    rw [this]
    rfl
  · by_cases h2 : s = ""
    · subst h2
      rfl
    · have hres : clean_role s = String.mk (trimSeq s.data) := by
        unfold clean_role
        rw [if_neg h1, if_neg h2]
      rw [hres]
      have hj : is_junk (String.mk (trimSeq s.data)) = false := by
        rw [is_junk_trim]
        exact Bool.not_eq_true _ ▸ eq_false_of_ne_true h1
      by_cases h3 : trimSeq s.data = []
      · rw [h3]
        rfl
      · unfold clean_role
        rw [if_neg (by rw [hj]; simp),
          if_neg (fun h => h3 (String_mk_eq_empty.mp h)), data_mk, trimSeq_idem]

theorem clean_company_idem (s : String) :
    clean_company (clean_company s) = clean_company s := by
  by_cases h1 : is_junk s = true
  · have : clean_company s = "" := by
      unfold clean_company
      rw [if_pos h1]
    rw [this]
    rfl
  · by_cases h2 : s = ""
    · subst h2
      rfl
    · have hres : clean_company s = String.mk (trimSeq s.data) := by
        unfold clean_company
        rw [if_neg h1, if_neg h2]
      rw [hres]
      have hj : is_junk (String.mk (trimSeq s.data)) = false := by
        rw [is_junk_trim]
        exact Bool.not_eq_true _ ▸ eq_false_of_ne_true h1
      by_cases h3 : trimSeq s.data = []
      · rw [h3]
        rfl
      · unfold clean_company
        rw [if_neg (by rw [hj]; simp),
          if_neg (fun h => h3 (String_mk_eq_empty.mp h)), data_mk, trimSeq_idem]

theorem rowHas_append_left {r : Row} {k : String} (s : Row)
    (h : rowHas r k = true) : rowHas (r ++ s) k = true := by
  induction r with
  | nil => simp [rowHas] at h
  | cons p t ih =>
    obtain ⟨k', v⟩ := p
    by_cases h2 : k' = k
    · simp [rowHas, h2]
    · simp only [rowHas, if_neg h2] at h ⊢
      exact ih h

theorem rowHas_rowSetD {r : Row} {k' : String} (k v : String)
    (h : rowHas r k' = true) : rowHas (rowSetD r k v) k' = true := by
  unfold rowSetD
  split_ifs
  · exact h
  · exact rowHas_append_left _ h

theorem phase1Base_get_status (row : Row) (sr : String × String) :
    rowGet (phase1Base row sr) "phone_status" "" = sr.1 := by
  unfold phase1Base
  rw [rowGet_rowSet_ne _ _ _ (by decide), rowGet_rowSet_ne _ _ _ (by decide),
    rowGet_rowSet_self]

theorem phase1Base_get_phone (row : Row) (sr : String × String) (d : String) :
    rowGet (phase1Base row sr) "phone_number" d = rowGet row "phone_number" d := by
  unfold phase1Base
  rw [rowGet_rowSet_ne _ _ _ (by decide), rowGet_rowSet_ne _ _ _ (by decide),
    rowGet_rowSet_ne _ _ _ (by decide)]

theorem phase1Row_suspect_fst {row : Row} (hs : (phase1Row row).2 = true) :
    (phase1Row row).1 = phase1Base row
      (heuristic_check (phoneArg row) (nameArg row) (sourceArg row)) := by
  unfold phase1Row phase1Apply at hs ⊢
  split_ifs at hs ⊢
  rfl

theorem pipelineRow_of_suspect {row : Row} (v : VerifyOutcome)
    (hs : (phase1Row row).2 = true) :
    pipelineRow v row = phase2Row (phase1Row row).1 v := by
  simp only [pipelineRow, hs, if_true]

/-- The seven terminal statuses a full validation run can leave on a row. -/
def finalStatuses : List String :=
  ["empty", "ok", "partial", "removed", "verified", "rejected", "unverified"]

theorem pipelineRow_status (v : VerifyOutcome) (row : Row) :
    rowGet (pipelineRow v row) "phone_status" "" ∈ finalStatuses := by
  unfold pipelineRow phase1Row phase1Apply
  set sr := heuristic_check (phoneArg row) (nameArg row) (sourceArg row)
    with hsr
  have hmem := heuristic_status_mem (phoneArg row) (nameArg row) (sourceArg row)
  rw [← hsr] at hmem
  simp only [List.mem_cons, List.not_mem_nil, or_false] at hmem
  obtain ⟨iv, rs, cp⟩ := v
  rcases hmem with h | h | h | h | h | h
  · simp [h, finalStatuses, phase1Base_get_status]
  · simp [h, finalStatuses, rowGet_rowSet_self]
  · simp [h, finalStatuses, rowGet_rowSet_self]
  · simp [h, finalStatuses, rowGet_rowSet_self]
  · -- suspect: phase 2 runs on the heuristic output row
    rcases iv with - | b
    · simp [h, phase2Row, finalStatuses, rowGet_rowSet_self, rowGet_rowSet_ne]
    · cases b
      · by_cases hc : cp = ""
        · simp [h, phase2Row, finalStatuses, hc, rowGet_rowSet_self,
            rowGet_rowSet_ne]
        · simp [h, phase2Row, finalStatuses, hc, rowGet_rowSet_self,
            rowGet_rowSet_ne]
      · simp [h, phase2Row, finalStatuses, rowGet_rowSet_self, rowGet_rowSet_ne]
  · simp [h, finalStatuses, phase1Base_get_status]

theorem heuristic_masked (phone name source : String)
    (hne : trimSeq phone.data ≠ []) (hmask : maskRun phone.data = true) :
    heuristic_check phone name source
      = ("partial", "masked/partial number: " ++ phone) := by
  simp [heuristic_check, hne, hmask]

/-! ### Claim theorems -/

/-- C2, counterexample: for a suspect record rejected with a non-empty
corrected phone, the corrected number is stored in `verified_phone` and the
status becomes `rejected`, but `phone_number` is NOT replaced with the
corrected number — the source only writes `verified_phone` in that branch,
leaving the original phone in place. -/
theorem claim_C2_counterexample :
    rowGet (pipelineRow vRej suspectRow) "phone_status" "" = "rejected" ∧
    rowGet (pipelineRow vRej suspectRow) "verified_phone" "" = "+13056668888" ∧
    rowGet (pipelineRow vRej suspectRow) "phone_number" "" = "+13056667777" ∧
    rowGet (pipelineRow vRej suspectRow) "phone_number" "" ≠ "+13056668888" := by
  decide

/-- C2, amended: for every suspect record whose verification response has
`is_valid` explicitly false, the status becomes `rejected`; when a non-empty
`corrected_phone` is supplied it is stored in `verified_phone` and the
record's `phone_number` is left unchanged (not replaced); with no correction
supplied the `phone_number` is cleared. -/
theorem claim_C2_amended (row : Row) (v : VerifyOutcome)
    (hs : (phase1Row row).2 = true) (hv : v.is_valid = some false) :
    rowGet (pipelineRow v row) "phone_status" "" = "rejected" ∧
    (v.corrected_phone ≠ "" →
      rowGet (pipelineRow v row) "verified_phone" "" = v.corrected_phone ∧
      rowGet (pipelineRow v row) "phone_number" ""
        = rowGet row "phone_number" "") ∧
    (v.corrected_phone = "" →
      rowGet (pipelineRow v row) "phone_number" "" = "") := by
  rw [pipelineRow_of_suspect v hs, phase1Row_suspect_fst hs]
  unfold phase2Row
  rw [hv, if_neg (by simp), if_pos rfl]
  by_cases hc : v.corrected_phone = ""
  · rw [if_neg (by simpa using hc)]
    refine ⟨?_, fun hne => absurd hc hne, fun _ => ?_⟩
    · rw [rowGet_rowSet_ne _ _ _ (by decide), rowGet_rowSet_ne _ _ _ (by decide),
        rowGet_rowSet_self]
    · rw [rowGet_rowSet_self]
  · rw [if_pos hc]
    refine ⟨?_, fun _ => ⟨?_, ?_⟩, fun h => absurd h hc⟩
    · rw [rowGet_rowSet_ne _ _ _ (by decide), rowGet_rowSet_ne _ _ _ (by decide),
        rowGet_rowSet_self]
    · rw [rowGet_rowSet_self]
    · rw [rowGet_rowSet_ne _ _ _ (by decide), rowGet_rowSet_ne _ _ _ (by decide),
        rowGet_rowSet_ne _ _ _ (by decide), phase1Base_get_phone]

/-- C2, witness: the concrete suspect row (institutional `fiu.edu` source)
with a rejecting, correcting verification outcome satisfies the hypotheses
of the amended claim. -/
theorem claim_C2_amended_witness :
    (phase1Row suspectRow).2 = true ∧
    rowGet (pipelineRow vRej suspectRow) "phone_status" "" = "rejected" := by
  refine ⟨by decide, ?_⟩
  exact (claim_C2_amended suspectRow vRej (by decide) rfl).1

/-- C6: a non-blank phone containing a run of 3 or more mask-class
characters (`X`, `x`, `*`, `.`) is classified `partial` by the heuristic —
this check runs before the 555, digit-length, and placeholder checks — and
the validation run keeps such a record's phone unchanged with terminal
status `partial`. -/
theorem claim_C6_masked :
    (∀ phone name source : String, trimSeq phone.data ≠ [] →
      maskRun phone.data = true →
      heuristic_check phone name source
        = ("partial", "masked/partial number: " ++ phone)) ∧
    (∀ (row : Row) (v : VerifyOutcome),
      maskRun (rowGet row "phone_number" "").data = true →
      rowGet (pipelineRow v row) "phone_number" ""
          = rowGet row "phone_number" "" ∧
      rowGet (pipelineRow v row) "phone_status" "" = "partial") := by
  refine ⟨heuristic_masked, ?_⟩
  intro row v hmask
  have hmask' : maskRun (phoneArg row).data = true := by
    simp only [phoneArg, data_mk]
    exact maskRun_trimSeq hmask
  have hne : trimSeq (phoneArg row).data ≠ [] := by
    obtain ⟨c, hc, hmc⟩ := maskRun_mem hmask'
    exact trimSeq_ne_nil_of_mem hc (maskChar_not_space hmc)
  unfold pipelineRow phase1Row phase1Apply
  rw [heuristic_masked _ (nameArg row) (sourceArg row) hne hmask']
  refine ⟨?_, ?_⟩ <;>
    simp [phase1Base, rowGet_rowSet_self, rowGet_rowSet_ne]

/-- C6, witness: the mask-run rule fires on `"555-XXXX"`, a phone that also
matches the 555 rule, showing the precedence, and the row keeps its phone. -/
theorem claim_C6_masked_witness :
    heuristic_check "555-XXXX" "" ""
        = ("partial", "masked/partial number: 555-XXXX") ∧
    rowGet (pipelineRow vNone [("phone_number", "555-XXXX")])
        "phone_number" "" = "555-XXXX" ∧
    rowGet (pipelineRow vNone [("phone_number", "555-XXXX")])
        "phone_status" "" = "partial" := by
  refine ⟨claim_C6_masked.1 "555-XXXX" "" "" (by decide) (by decide), ?_, ?_⟩
  · exact (claim_C6_masked.2 [("phone_number", "555-XXXX")] vNone (by decide)).1
  · exact (claim_C6_masked.2 [("phone_number", "555-XXXX")] vNone (by decide)).2

/-- C9: after a full validation run every row's `phone_status` is one of the
seven terminal statuses; the transient `fake` and `invalid` are rewritten to
`removed` in the same iteration, and every `suspect` row is resolved by
phase 2 to `verified`, `rejected`, or `unverified`, so `fake`, `invalid`,
and `suspect` never appear in the output. -/
theorem claim_C9_statuses :
    ∀ (oracle : Nat → VerifyOutcome) (i : Nat) (rows : List Row),
      ∀ r ∈ runPipeline oracle i rows,
        rowGet r "phone_status" "" ∈ finalStatuses := by
  intro oracle i rows
  induction rows generalizing i with
  | nil =>
    intro r hr
    simp [runPipeline] at hr
  | cons a t ih =>
    intro r hr
    rcases List.mem_cons.mp (by simpa [runPipeline] using hr) with rfl | h
    · exact pipelineRow_status (oracle i) a
    · exact ih (i + 1) r h

/-- C9, witness: a one-row run with an empty phone produces the status
`empty`, a member of the terminal set. -/
theorem claim_C9_statuses_witness :
    rowGet [("phone_number", ""), ("phone_status", "empty"),
        ("phone_review_note", "no phone"), ("verified_phone", "")]
      "phone_status" "" ∈ finalStatuses :=
  claim_C9_statuses (fun _ => vNone) 0 [[("phone_number", "")]] _ (by decide)

/-- C3, counterexample: the name cleaner is not idempotent.
`clean_full_name` strips exactly one trailing `"Verified"` per application,
so on `"AVerifiedVerified"` the first application yields `"AVerified"` and
the second strips again, yielding `"A"`. -/
theorem claim_C3_counterexample :
    clean_full_name (clean_full_name "AVerifiedVerified")
      ≠ clean_full_name "AVerifiedVerified" := by
  decide

/-- C3, amended: the email, phone, LinkedIn, role, and company cleaners are
idempotent on every string; the name cleaner is excluded, since it strips
only one trailing `"Verified"` badge per application. -/
theorem claim_C3_amended :
    (∀ s, clean_email (clean_email s) = clean_email s) ∧
    (∀ s, clean_phone (clean_phone s) = clean_phone s) ∧
    (∀ s, clean_linkedin (clean_linkedin s) = clean_linkedin s) ∧
    (∀ s, clean_role (clean_role s) = clean_role s) ∧
    (∀ s, clean_company (clean_company s) = clean_company s) := by
  refine ⟨?_, ?_, clean_linkedin_idem, clean_role_idem, clean_company_idem⟩
  · intro s
    rcases clean_email_cases s with h | ⟨e, hr, hp, hc, ht⟩
    · rw [h]
      rfl
    · rw [hr]
      exact clean_email_fix hp hc ht
  · intro s
    rcases clean_phone_cases s with h | ⟨e, hr, hp, hc, ht⟩
    · rw [h]
      rfl
    · rw [hr]
      exact clean_phone_fix hp hc ht

/-- C1, counterexample: on the raw phone string `"123-456-7890"` the
heuristic returns `ok`, not `fake`, and the validation run keeps the phone
unchanged with terminal status `ok` — the placeholder regex `123-?4567` is
matched against the raw dashed string, where the digits `4567` are split by
a dash, so it does not fire. -/
theorem claim_C1_counterexample :
    (heuristic_check "123-456-7890" "" "").1 = "ok" ∧
    (heuristic_check "123-456-7890" "" "").1 ≠ "fake" ∧
    rowGet (pipelineRow vNone [("phone_number", "123-456-7890")])
      "phone_status" "" = "ok" ∧
    rowGet (pipelineRow vNone [("phone_number", "123-456-7890")])
      "phone_number" "" = "123-456-7890" := by
  decide

/-- C1, amended: a raw phone containing the placeholder digit run as a
literal substring (`1234567` or `123-4567`, e.g. `"123-4567"`) is classified
`fake` by the heuristic and ends `removed` with the phone cleared; the
dashed `"123-456-7890"` itself passes the heuristics as `ok` and is kept. -/
theorem claim_C1_amended :
    heuristic_check "123-4567" "" "" = ("fake", "placeholder number: 123-4567") ∧
    rowGet (pipelineRow vNone [("phone_number", "123-4567")])
      "phone_status" "" = "removed" ∧
    rowGet (pipelineRow vNone [("phone_number", "123-4567")])
      "phone_number" "" = "" ∧
    heuristic_check "123-456-7890" "" "" = ("ok", "passed heuristic checks") := by
  decide

/-- C7, counterexample: `"1555-0123"` contains `"555"` separated from a
4-digit group by `-`, so the claim's characterization makes it fake, but
`is_fake_phone` returns `false`: the source regex `\b555[-.\s]?\d{4}\b`
requires a word boundary before `555` and the preceding `1` defeats it. -/
theorem claim_C7_counterexample :
    spec_is_fake_phone_claim "1555-0123" = true ∧
    is_fake_phone "1555-0123" = false := by
  decide

/-- C7, amended: `is_fake_phone` is true for `"555-0123"` and
`"+1-202-555-0123"` and false for `"212-867-5309"`, and in general it is
true exactly when the trimmed value is in the fixed denylist, or contains
`555` plus an optional `-`, `.`, or whitespace separator plus 4 digits with
regex word boundaries on both sides (the `555` not preceded by a word
character and the digit group not followed by one), or the digit-only form
has length at least 7 with at most 2 distinct digit values. -/
theorem claim_C7_amended :
    is_fake_phone "555-0123" = true ∧
    is_fake_phone "+1-202-555-0123" = true ∧
    is_fake_phone "212-867-5309" = false ∧
    (∀ v : String, is_fake_phone v = true ↔
      (FAKE_PHONES.contains (String.mk (trimSeq v.data)) = true ∨
       spec555 (trimSeq v.data) ∨
       (7 ≤ ((trimSeq v.data).filter Char.isDigit).length ∧
         distinctCount ((trimSeq v.data).filter Char.isDigit) ≤ 2))) := by
  refine ⟨by decide, by decide, by decide, ?_⟩
  intro v
  simp only [is_fake_phone, data_mk]
  split_ifs with h0 h1 h2 h3
  · subst h0
    constructor
    · intro h
      cases h
    · rintro (h | h | h)
      · exact absurd h (by decide)
      · exact spec555_nil h
      · exact absurd h (by decide)
  · exact ⟨fun _ => Or.inl h1, fun _ => rfl⟩
  · exact ⟨fun _ => Or.inr (Or.inl ((scan555b_none_iff _).mp h2)), fun _ => rfl⟩
  · exact ⟨fun _ => Or.inr (Or.inr h3), fun _ => rfl⟩
  · constructor
    · intro h
      cases h
    · rintro (h | h | h)
      · exact absurd h (by simpa using h1)
      · exact absurd ((scan555b_none_iff _).mpr h) (by simpa using h2)
      · exact absurd h h3

/-- C8: the heuristic classifiers are total over arbitrary strings.  In this
embedding each predicate is a total Lean function by construction; the
theorem records that `heuristic_check` always returns one of the six defined
status tags, and that every predicate is defined (with value `false`, resp.
status `empty`) on the empty string. -/
theorem claim_C8_total :
    (∀ p n s : String, (heuristic_check p n s).1 ∈
      (["empty", "partial", "fake", "invalid", "suspect", "ok"] : List String)) ∧
    is_junk "" = false ∧
    is_url_not_email "" = false ∧
    is_too_masked "" = false ∧
    is_fake_phone "" = false ∧
    (∀ n s : String, heuristic_check "" n s = ("empty", "no phone")) :=
  ⟨heuristic_status_mem, by decide, by decide, by decide, by decide,
    fun _ _ => rfl⟩

/-- C5: batch response decoding is fail-soft and always yields a list.  A
transport/HTTP error or non-JSON body (`none` outcome) gives the empty
result list; an object-shaped body always decodes to `.ok` of some list; a
direct array is accepted as is; a wrapping object has its `people` array
extracted; an undecodable string answer gives the empty list; and a decodable
string answer is processed as the decoded structure. -/
theorem claim_C5_decode :
    (∀ parse : String → Option JVal, enrichDecode parse none = .ok []) ∧
    (∀ (parse : String → Option JVal) (fs : List (String × JVal)),
      ∃ l, enrichDecode parse (some (.jobj fs)) = .ok l) ∧
    (∀ (parse : String → Option JVal) (xs : List JVal),
      decodeAnswer parse (.jarr xs) = xs) ∧
    (∀ (parse : String → Option JVal) (fs : List (String × JVal)) (xs : List JVal),
      jlookup fs "people" = some (.jarr xs) →
        decodeAnswer parse (.jobj fs) = xs) ∧
    (∀ (parse : String → Option JVal) (s : String),
      parse s = none → decodeAnswer parse (.jstr s) = []) ∧
    (∀ (parse : String → Option JVal) (s : String) (j : JVal),
      parse s = some j → decodeAnswer parse (.jstr s) = postShape j) := by
  refine ⟨fun _ => rfl, fun parse fs => ⟨_, rfl⟩, fun _ _ => rfl, ?_, ?_, ?_⟩
  · intro parse fs xs h
    simp [decodeAnswer, postShape, h]
  · intro parse s h
    simp [decodeAnswer, h]
  · intro parse s j h
    simp [decodeAnswer, h]

/-- C5, witness: concrete instances of the hypotheses of
`claim_C5_decode` — an unparsable string answer, a parsable string answer,
and an object wrapping a `people` array. -/
theorem claim_C5_decode_witness :
    decodeAnswer (fun _ => none) (.jstr "oops") = [] ∧
    decodeAnswer (fun _ => some (.jarr [.jnull])) (.jstr "[null]") = [.jnull] ∧
    decodeAnswer (fun _ => none) (.jobj [("people", .jarr [.jbool true])])
      = [.jbool true] := by
  refine ⟨?_, ?_, ?_⟩
  · exact claim_C5_decode.2.2.2.2.1 (fun _ => none) "oops" rfl
  · exact claim_C5_decode.2.2.2.2.2 (fun _ => some (.jarr [.jnull])) "[null]"
      (.jarr [.jnull]) rfl
  · exact claim_C5_decode.2.2.2.1 (fun _ => none)
      [("people", .jarr [.jbool true])] [.jbool true] rfl

end Agents

namespace Agents

/-- C4: reconciliation indexes results by lower-cased trimmed name and looks
each record up by its own lower-cased trimmed name; a matched record (in
either enricher) receives the matched result's fields, an unmatched record
keeps every existing value and observes the empty string for all
newly-introduced fields, and no record ever errors; in particular the
concrete 5-record batch with 3 matching answers populates exactly those 3
records and leaves empty defaults on the other 2. -/
theorem claim_C4_matching :
    (∀ (results : List LiAnswer) (row : Row) (m : LiAnswer),
      liLookup results (rowKey row) = some m →
        rowGet (liMatchRow results row) "linkedin" "" = m.linkedin.getD "" ∧
        rowGet (liMatchRow results row) "email" "" = m.email.getD "" ∧
        rowGet (liMatchRow results row) "role" ""
          = m.role.getD (rowGet row "role" "") ∧
        rowGet (liMatchRow results row) "additional_links" ""
          = joinSC (m.additional_links.getD [])) ∧
    (∀ (results : List LiAnswer) (row : Row),
      liLookup results (rowKey row) = none →
        ∀ k, rowGet (liMatchRow results row) k "" = rowGet row k "") ∧
    (∀ (results : List PhAnswer) (row : Row) (m : PhAnswer),
      phLookup results (rowKey row) = some m →
        rowGet (phMatchRow results row) "phone_number" ""
            = m.phone_number.getD "" ∧
        rowGet (phMatchRow results row) "email" "" = m.email.getD "" ∧
        rowGet (phMatchRow results row) "source" "" = m.source.getD "") ∧
    (∀ (results : List PhAnswer) (row : Row),
      phLookup results (rowKey row) = none →
        ∀ k, rowGet (phMatchRow results row) k "" = rowGet row k "") ∧
    liMatchBatch demoResults demoRows = demoExpected := by
  refine ⟨?_, ?_, ?_, ?_, by decide⟩
  · intro results row m h
    simp only [liMatchRow, h]
    refine ⟨?_, ?_, ?_, ?_⟩
    · rw [rowGet_rowSet_ne _ _ _ (by decide), rowGet_rowSet_ne _ _ _ (by decide),
        rowGet_rowSet_ne _ _ _ (by decide), rowGet_rowSet_self]
    · rw [rowGet_rowSet_ne _ _ _ (by decide), rowGet_rowSet_self]
    · rw [rowGet_rowSet_ne _ _ _ (by decide), rowGet_rowSet_ne _ _ _ (by decide),
        rowGet_rowSet_self, rowGet_rowSet_ne _ _ _ (by decide)]
    · rw [rowGet_rowSet_self]
  · intro results row h k
    simp only [liMatchRow, h]
    rw [rowGet_rowSetD_zero, rowGet_rowSetD_zero, rowGet_rowSetD_zero]
  · intro results row m h
    simp only [phMatchRow, h]
    refine ⟨?_, ?_, ?_⟩
    · rw [rowGet_rowSet_ne _ _ _ (by decide), rowGet_rowSet_ne _ _ _ (by decide),
        rowGet_rowSet_self]
    · rw [rowGet_rowSet_ne _ _ _ (by decide), rowGet_rowSet_self]
    · rw [rowGet_rowSet_self]
  · intro results row h k
    simp only [phMatchRow, h]
    rw [rowGet_rowSetD_zero, rowGet_rowSetD_zero, rowGet_rowSetD_zero]

/-- C4, witness: in the concrete batch, the matched row `"Alice A"` receives
the result's LinkedIn value and the unmatched row `"Dan D"` observes the
empty default. -/
theorem claim_C4_matching_witness :
    rowGet (liMatchRow demoResults [("name", "Alice A")]) "linkedin" ""
        = "li-a" ∧
    rowGet (liMatchRow demoResults [("name", "Dan D")]) "linkedin" "" = "" := by
  constructor
  · exact (claim_C4_matching.1 demoResults [("name", "Alice A")]
      ⟨some "Alice A", some "CEO", some "a@x.com", some "li-a",
        some ["t.co/a"]⟩ rfl).1
  · exact claim_C4_matching.2.1 demoResults [("name", "Dan D")] rfl "linkedin"

/-- C10: when a result matches a record in the LinkedIn enricher, the
`linkedin` and `email` fields are unconditionally overwritten with the
result's values (empty when absent), discarding pre-existing values, while
`role` falls back to the record's existing role exactly when the result has
no role; unmatched records have no existing field modified and absent new
fields default to empty. -/
theorem claim_C10_overwrite :
    (∀ (results : List LiAnswer) (row : Row) (m : LiAnswer),
      liLookup results (rowKey row) = some m →
        rowGet (liMatchRow results row) "linkedin" "" = m.linkedin.getD "" ∧
        rowGet (liMatchRow results row) "email" "" = m.email.getD "" ∧
        (m.role = none →
          rowGet (liMatchRow results row) "role" "" = rowGet row "role" "") ∧
        (∀ rv, m.role = some rv →
          rowGet (liMatchRow results row) "role" "" = rv)) ∧
    (∀ (results : List LiAnswer) (row : Row),
      liLookup results (rowKey row) = none →
        (∀ k d, rowHas row k = true →
          rowGet (liMatchRow results row) k d = rowGet row k d) ∧
        (∀ k, rowGet (liMatchRow results row) k "" = rowGet row k "")) := by
  constructor
  · intro results row m h
    simp only [liMatchRow, h]
    refine ⟨?_, ?_, ?_, ?_⟩
    · rw [rowGet_rowSet_ne _ _ _ (by decide), rowGet_rowSet_ne _ _ _ (by decide),
        rowGet_rowSet_ne _ _ _ (by decide), rowGet_rowSet_self]
    · rw [rowGet_rowSet_ne _ _ _ (by decide), rowGet_rowSet_self]
    · intro hr
      rw [rowGet_rowSet_ne _ _ _ (by decide), rowGet_rowSet_ne _ _ _ (by decide),
        rowGet_rowSet_self, hr, Option.getD_none,
        rowGet_rowSet_ne _ _ _ (by decide)]
    · intro rv hr
      rw [rowGet_rowSet_ne _ _ _ (by decide), rowGet_rowSet_ne _ _ _ (by decide),
        rowGet_rowSet_self, hr, Option.getD_some]
  · intro results row h
    simp only [liMatchRow, h]
    constructor
    · intro k d hk
      have hk1 : rowHas (rowSetD row "linkedin" "") k = true :=
        rowHas_rowSetD _ _ hk
      have hk2 : rowHas (rowSetD (rowSetD row "linkedin" "") "email" "") k
          = true := rowHas_rowSetD _ _ hk1
      rw [rowGet_rowSetD_of_has _ _ _ _ _ hk2,
        rowGet_rowSetD_of_has _ _ _ _ _ hk1,
        rowGet_rowSetD_of_has _ _ _ _ _ hk]
    · intro k
      rw [rowGet_rowSetD_zero, rowGet_rowSetD_zero, rowGet_rowSetD_zero]

/-- C10, witness: a row with pre-existing `linkedin`, `email`, and `role`
matched by a result without a role key has its LinkedIn overwritten and its
role preserved. -/
theorem claim_C10_overwrite_witness :
    rowGet (liMatchRow demoResults c10Row) "linkedin" "" = "li-c" ∧
    rowGet (liMatchRow demoResults c10Row) "role" "" = "Chef" := by
  have h := claim_C10_overwrite.1 demoResults c10Row
    ⟨some " Cara C ", none, some "c@x.com", some "li-c",
      some ["t.co/c", "c.me"]⟩ rfl
  exact ⟨h.1, h.2.2.1 rfl⟩

end Agents
